import Mathlib

/-
  Verification of the scraping/discovery engine of the arbitraje_minorista
  repository (Python backend), shallowly embedded in Lean 4.

  Sources embedded:
  - backend/services/scraper.py        (price parsing, scrape operation, retry)
  - backend/repositories/base.py       (create/update: each call commits)
  - backend/repositories/producto_repository.py (get_by_url_and_retailer,
    update_scraped_data), historial_precio_repository.py (create_price_record)
  - backend/services/event_handlers.py (on_product_scraped)
  - backend/services/concurrent_scraper.py (ConcurrentScraper, BatchProcessor)
  - backend/services/event_bus.py      (event publication, modelled as traces)

  Python floats holding prices are modelled as rationals; wall-clock times and
  durations are environment parameters; the browser/page is modelled by a
  PageEnv record describing what the navigated page yields.
-/

namespace Arb

/-! ## Price-text normalization (scraper.py lines 120-123)

`price_limpio = "".join(filter(lambda x: x.isdigit() or x == ".", price_str.replace(",", ".")))`
`price = float(price_limpio) if price_limpio else 0.00`

`float` applied to a non-empty digits-and-dots string succeeds exactly when the
string has at most one dot and at least one digit; otherwise Python raises
ValueError, modelled by `none`. -/

def digitVal (c : Char) : ℕ := c.toNat - 48

def digitsVal (l : List Char) : ℕ := l.foldl (fun a c => 10 * a + digitVal c) 0

/-- Python `float()` restricted to strings of digits and dots (the only strings
the scraper ever passes to it). `none` models a raised ValueError. -/
def pyFloatOfCleaned (l : List Char) : Option ℚ :=
  match l.splitOn '.' with
  | [w] =>
      if !w.isEmpty && w.all Char.isDigit then some (digitsVal w) else none
  | [w, f] =>
      if !(w ++ f).isEmpty && (w ++ f).all Char.isDigit then
        some ((digitsVal w : ℚ) + (digitsVal f : ℚ) / (10 : ℚ) ^ f.length)
      else none
  | _ => none

def replaceCommas (l : List Char) : List Char :=
  l.map (fun c => if c = ',' then '.' else c)

def priceLimpio (l : List Char) : List Char :=
  (replaceCommas l).filter (fun c => c.isDigit || c == '.')

/-- The scraper's price-text normalization and parse.  `none` models a raised
ValueError escaping `scrape_product_from_page`. -/
def parsePrice (price_str : List Char) : Option ℚ :=
  let limpio := priceLimpio price_str
  if limpio.isEmpty then some 0 else pyFloatOfCleaned limpio

/-! ## Price-change derivation (event_handlers.py, ScrapingEventHandlers.on_product_scraped)

`if old_price is not None and old_price != price:` derive the PriceChanged
event with `change_amount = price - old_price` and
`change_percentage = ((price - old_price) / old_price) * 100 if old_price > 0 else 0`. -/

deriving instance DecidableEq for Except

structure PriceChangedData where
  change_amount : ℚ
  change_percentage : ℚ
deriving DecidableEq

/-- The PriceChanged derivation performed by `on_product_scraped`, as a function
of the `old_price` and `price` fields of the incoming ProductScraped event.
`none` means no PriceChanged event is published. -/
def on_product_scraped (old_price : Option ℚ) (price : ℚ) : Option PriceChangedData :=
  match old_price with
  | none => none
  | some o =>
      if o ≠ price then
        some { change_amount := price - o
               change_percentage := if o > 0 then ((price - o) / o) * 100 else 0 }
      else none

/-! ## Persistence model (repositories) -/

structure Producto where
  id : ℕ
  name : String
  price : ℚ
  product_url : String
  image_url : Option String
  id_minorista : ℕ
  last_scraped_at : ℕ
deriving DecidableEq

structure HistorialPrecio where
  id_producto : ℕ
  id_minorista : ℕ
  precio : ℚ
deriving DecidableEq

/-- The committed database state.  Every `BaseRepository.create`/`update` call
in the source does `add`/`commit` immediately, so each repository operation
below is one committed transition; `nextId` models the autoincrement key. -/
structure DB where
  productos : List Producto
  historial : List HistorialPrecio
  nextId : ℕ
deriving DecidableEq

def get_by_url_and_retailer (db : DB) (product_url : String) (id_minorista : ℕ) :
    Option Producto :=
  db.productos.find? (fun p => p.product_url == product_url && p.id_minorista == id_minorista)

/-- `ProductoRepository.update_scraped_data`: update the existing row (keyed by
primary key) or create a new one.  Both branches commit (base.py). -/
def update_scraped_data (db : DB) (product_url : String) (id_minorista : ℕ)
    (name : String) (price : ℚ) (image_url : Option String) (now : ℕ) : Producto × DB :=
  match get_by_url_and_retailer db product_url id_minorista with
  | some existing =>
      let updated : Producto :=
        { existing with name := name, price := price, image_url := image_url,
                        last_scraped_at := now }
      (updated,
       { db with productos :=
           db.productos.map (fun q => if q.id == existing.id then updated else q) })
  | none =>
      let created : Producto :=
        { id := db.nextId, name := name, price := price, product_url := product_url,
          image_url := image_url, id_minorista := id_minorista, last_scraped_at := now }
      (created, { db with productos := db.productos ++ [created], nextId := db.nextId + 1 })

/-- `HistorialPrecioRepository.create_price_record` (a committed insert). -/
def create_price_record (db : DB) (id_producto : ℕ) (id_minorista : ℕ) (precio : ℚ) : DB :=
  { db with historial := db.historial ++ [{ id_producto := id_producto,
                                            id_minorista := id_minorista,
                                            precio := precio }] }

/-! ## The scrape operation (scraper.py) -/

/-- Data of the ProductScraped event published at the end of
`scrape_product_from_page`. -/
structure ScrapedEvent where
  product_id : ℕ
  retailer_id : ℕ
  price : ℚ
  old_price : Option ℚ
  is_new_product : Bool
deriving DecidableEq

/-- Python exception classes that cross the functions under study. -/
inductive PyExc where
  | httpExc (status : ℕ) (detail : String)
  | integrityError
  | sqlAlchemyError
  | valueError
  | playwrightError
deriving DecidableEq

/-- The persistence tail of `scrape_product_from_page` (lines 128-175): capture
`old_price`/`is_new` from the existing row, upsert the product (this commits),
then append the price-history row (a second, separate commit).
`history_fault` injects a persistence failure raised by the history insert's
commit; in that case the insert's own rollback discards only the uncommitted
insert and the exception propagates — the already-committed upsert stands. -/
def scrape_persist (db : DB) (product_url : String) (id_minorista : ℕ) (name : String)
    (price : ℚ) (image_url : Option String) (now : ℕ) (history_fault : Option PyExc) :
    DB × Except PyExc ScrapedEvent :=
  let existing := get_by_url_and_retailer db product_url id_minorista
  let old_price := existing.map (fun p => p.price)
  let is_new := existing.isNone
  let pr := update_scraped_data db product_url id_minorista name price image_url now
  match history_fault with
  | some e => (pr.2, .error e)
  | none =>
      (create_price_record pr.2 pr.1.id id_minorista price,
       .ok { product_id := pr.1.id, retailer_id := id_minorista, price := price,
             old_price := old_price, is_new_product := is_new })

structure Minorista where
  id : ℕ
  nombre : String
  url_base : String
  activo : Bool
  name_selector : Option String
  price_selector : Option String
  image_selector : Option String
deriving DecidableEq

/-- Python truthiness of a nullable string column (`None` and `""` are falsy),
as used by `all([minorista.name_selector, minorista.price_selector])`. -/
def truthyStr : Option String → Bool
  | none => false
  | some s => !s.isEmpty

/-- What the navigated page yields: whether `page.goto` raises, and the text
content of the name/price elements and the image `src` attribute (`none` when
the element is not visible / has no attribute). -/
structure PageEnv where
  goto_fails : Bool
  name_text : Option String
  price_text : Option String
  image_src : Option String
deriving DecidableEq

/-- `scrape_product_from_page`: navigate, validate selectors (HTTPException 400
when name or price selector is falsy), extract with defaults, parse the price
(ValueError on an unparseable non-empty cleaned string), then persist and
build the ProductScraped event.  `resolve` stands for `urllib.parse.urljoin`. -/
def scrape_product_from_page (resolve : String → String → String) (env : PageEnv)
    (product_url : String) (m : Minorista) (db : DB) (now : ℕ)
    (history_fault : Option PyExc) : DB × Except PyExc ScrapedEvent :=
  if env.goto_fails then (db, .error .playwrightError)
  else if !(truthyStr m.name_selector && truthyStr m.price_selector) then
    (db, .error (.httpExc 400 "selectores no configurados"))
  else
    let name := env.name_text.getD "Nombre Desconocido"
    let price_str := env.price_text.getD "0.00"
    let image_url :=
      if truthyStr m.image_selector then
        match env.image_src with
        | some src => if src.isEmpty then none else some (resolve m.url_base src)
        | none => none
      else none
    match parsePrice price_str.data with
    | none => (db, .error .valueError)
    | some price => scrape_persist db product_url m.id name price image_url now history_fault

def find_minorista (ms : List Minorista) (idm : ℕ) : Option Minorista :=
  ms.find? (fun m => m.id == idm)

/-- `_scrape_product_internal`: look up the retailer (HTTPException 404 when
absent, raised before the try block), run the page scrape, and map any raised
exception: IntegrityError to HTTPException 400, everything else — including
the validation HTTPException 400 — to HTTPException 500.  The `db.rollback()`
calls discard only uncommitted work, which the state threading reflects. -/
def scrape_product_internal (resolve : String → String → String) (env : PageEnv)
    (product_url : String) (id_minorista : ℕ) (db : DB) (minoristas : List Minorista)
    (now : ℕ) (history_fault : Option PyExc) : DB × Except PyExc ScrapedEvent :=
  match find_minorista minoristas id_minorista with
  | none => (db, .error (.httpExc 404 "minorista no encontrado"))
  | some m =>
      match scrape_product_from_page resolve env product_url m db now history_fault with
      | (db2, .ok ev) => (db2, .ok ev)
      | (db2, .error e) =>
          match e with
          | .integrityError => (db2, .error (.httpExc 400 "error de integridad"))
          | _ => (db2, .error (.httpExc 500 "error inesperado"))

/-! ## Retry with exponential backoff (scraper.py lines 24-76)

`for attempt in range(max_retries + 1): try: return await func(...) except
Exception: if attempt == max_retries: raise; sleep(delay)`.  The callable is
modelled per attempt index (its side effects thread the state `σ`); the result
carries the number of invocations.  Sleeping affects no modelled state. -/

def retryGo (f : ℕ → σ → σ × Except ε α) : ℕ → ℕ → σ → σ × Except ε α × ℕ
  | attempt, 0, s =>
      let r := f attempt s
      (r.1, r.2, 1)
  | attempt, remaining + 1, s =>
      match f attempt s with
      | (s2, .ok v) => (s2, .ok v, 1)
      | (s2, .error _) =>
          let r := retryGo f (attempt + 1) remaining s2
          (r.1, r.2.1, r.2.2 + 1)

/-- `retry_with_exponential_backoff` with `max_retries` retries: attempts run
at indices 0..max_retries; a failure at index `max_retries` re-raises. -/
def retry_with_exponential_backoff (f : ℕ → σ → σ × Except ε α) (max_retries : ℕ)
    (s : σ) : σ × Except ε α × ℕ :=
  retryGo f 0 max_retries s

/-- `scrape_product_data`: the public entry point, wrapping
`_scrape_product_internal` in the retry supervisor (`max_retries=3` at the
call site).  `envs`/`history_faults` give each attempt its page outcome and
injected persistence fault. -/
def scrape_product_data (resolve : String → String → String) (envs : ℕ → PageEnv)
    (product_url : String) (id_minorista : ℕ) (db : DB) (minoristas : List Minorista)
    (now : ℕ) (history_faults : ℕ → Option PyExc) (max_retries : ℕ) :
    DB × Except PyExc ScrapedEvent × ℕ :=
  retry_with_exponential_backoff
    (fun attempt s =>
      scrape_product_internal resolve (envs attempt) product_url id_minorista s
        minoristas now (history_faults attempt))
    max_retries db

/-! ## Concurrency Controller (concurrent_scraper.py)

`semaphore = asyncio.Semaphore(max_concurrent_browsers * max_concurrent_per_browser)`;
each task runs `async with semaphore: try ... except ...`.  A run of the
cooperative scheduler is a trace of acquire/release events; `semRun` is the
semaphore's semantics: an acquire is only ever scheduled when the holder count
is below capacity, a release only by a current holder. -/

inductive SemEvent where
  | acq (t : ℕ)
  | rel (t : ℕ)
deriving DecidableEq

def semStep (cap : ℕ) (s : Finset ℕ) : SemEvent → Option (Finset ℕ)
  | .acq t => if t ∉ s ∧ s.card < cap then some (insert t s) else none
  | .rel t => if t ∈ s then some (s.erase t) else none

def semRun (cap : ℕ) (s : Finset ℕ) : List SemEvent → Option (Finset ℕ)
  | [] => some s
  | e :: es =>
      match semStep cap s e with
      | some s2 => semRun cap s2 es
      | none => none

/-- The slot events of one task `t`: `async with semaphore:` acquires exactly
once and releases exactly once on every exit path (success, the caught
failure, or cancellation unwinding the with-block). -/
def taskTrace (t : ℕ) : List SemEvent := [.acq t, .rel t]

def eventTid : SemEvent → ℕ
  | .acq t => t
  | .rel t => t

/-- The subtrace of events belonging to task `t`. -/
def taskEvents (t : ℕ) (tr : List SemEvent) : List SemEvent :=
  tr.filter (fun e => eventTid e == t)

def countAcq (t : ℕ) (tr : List SemEvent) : ℕ :=
  (tr.filter (fun e => e == SemEvent.acq t)).length

def countRel (t : ℕ) (tr : List SemEvent) : ℕ :=
  (tr.filter (fun e => e == SemEvent.rel t)).length

/-- The semaphore size used by `ConcurrentScraper`. -/
def semaphoreCapacity (max_concurrent_browsers max_concurrent_per_browser : ℕ) : ℕ :=
  max_concurrent_browsers * max_concurrent_per_browser

/-! ## ConcurrentScraper results and the event trace (concurrent_scraper.py)

Each task `_scrape_single_product_with_semaphore` increments `successful`, or
increments `failed` and appends one error entry.  An item is (product id,
whether its scrape succeeds); the wall-clock duration of the run is an
environment parameter. -/

structure ScrapeResults where
  total_products : ℕ
  successful : ℕ
  failed : ℕ
  errors : List ℕ
  duration_seconds : Option ℚ
  products_per_second : Option ℚ
deriving DecidableEq

inductive BusEvent where
  | scraping_started (products_count : ℕ)
  | scraping_completed (results : ScrapeResults)
deriving DecidableEq

/-- The tasks' mutations of the shared `results` dict, in completion order:
the try branch increments `successful`; the except branch increments `failed`
and appends one error entry. -/
def runTasks : List (ℕ × Bool) → ScrapeResults → ScrapeResults
  | [], r => r
  | (_, true) :: rest, r => runTasks rest { r with successful := r.successful + 1 }
  | (pid, false) :: rest, r =>
      runTasks rest { r with failed := r.failed + 1, errors := r.errors ++ [pid] }

/-- `ConcurrentScraper.scrape_products_concurrently`: early return on an empty
list (no events, no duration keys); otherwise publish ScrapingStarted, run all
tasks (failures never cancel siblings: `gather(return_exceptions=True)`), set
the duration keys, publish ScrapingCompleted carrying the results. -/
def scrape_products_concurrently (items : List (ℕ × Bool)) (duration : ℚ) :
    ScrapeResults × List BusEvent :=
  let init : ScrapeResults :=
    { total_products := items.length, successful := 0, failed := 0, errors := [],
      duration_seconds := none, products_per_second := none }
  if items.isEmpty then (init, [])
  else
    let r1 := runTasks items init
    let res :=
      { r1 with duration_seconds := some duration,
                products_per_second :=
                  some (if 0 < duration then (items.length : ℚ) / duration else 0) }
    (res, [.scraping_started items.length, .scraping_completed res])

/-- Fuel-driven worker for `chunkList`; the fuel is an upper bound on the
number of chunks (each chunk consumes at least one element). -/
def chunkListF (batch_size : ℕ) : ℕ → List α → List (List α)
  | _, [] => []
  | 0, _ :: _ => []
  | fuel + 1, x :: xs =>
      (x :: xs.take (batch_size - 1)) :: chunkListF batch_size fuel (xs.drop (batch_size - 1))

/-- `products[i:i + batch_size]` slices (BatchProcessor; `batch_size` positive
in Python, where a zero step raises). -/
def chunkList (batch_size : ℕ) (l : List α) : List (List α) :=
  chunkListF batch_size l.length l

structure BatchTotals where
  total_products : ℕ
  successful : ℕ
  failed : ℕ
  errors : List ℕ
  batches_processed : ℕ
deriving DecidableEq

/-- The sequential loop over batches: each batch's scrape never raises, so the
aggregation branch always runs (the except branch of the loop is dead code). -/
def runBatches (chunk_durations : ℕ → ℚ) :
    List (ℕ × List (ℕ × Bool)) → BatchTotals → List BusEvent → BatchTotals × List BusEvent
  | [], acc, tr => (acc, tr)
  | (i, batch) :: rest, acc, tr =>
      let br := scrape_products_concurrently batch (chunk_durations i)
      runBatches chunk_durations rest
        { acc with successful := acc.successful + br.1.successful,
                   failed := acc.failed + br.1.failed,
                   errors := acc.errors ++ br.1.errors,
                   batches_processed := acc.batches_processed + 1 }
        (tr ++ br.2)

/-- `BatchProcessor.process_products_in_batches`: chunk, process chunks
strictly in sequence, aggregate counts and error lists.  The inter-batch sleep
and the final duration/throughput fields touch no modelled state. -/
def process_products_in_batches (items : List (ℕ × Bool)) (batch_size : ℕ)
    (chunk_durations : ℕ → ℚ) : BatchTotals × List BusEvent :=
  let init : BatchTotals :=
    { total_products := items.length, successful := 0, failed := 0, errors := [],
      batches_processed := 0 }
  runBatches chunk_durations ((chunkList batch_size items).enum) init []

def isStartedEvent : BusEvent → Bool
  | .scraping_started _ => true
  | _ => false

def isCompletedEvent : BusEvent → Bool
  | .scraping_completed _ => true
  | _ => false

def countStarted (tr : List BusEvent) : ℕ := (tr.filter isStartedEvent).length

def countCompleted (tr : List BusEvent) : ℕ := (tr.filter isCompletedEvent).length

/-! ## Discovery (scraper.py, discover_products_and_add_to_db lines 282-310)

For each extracted link: resolve against the retailer base URL, look the pair
up, create the placeholder when absent (a committed insert, so later
duplicates of the same URL take the update branch), refresh the timestamp when
present. -/

def discoverStep (m : Minorista) (resolve : String → String → String) (now : ℕ)
    (db : DB) (link : String) : DB :=
  let full_url := resolve m.url_base link
  match get_by_url_and_retailer db full_url m.id with
  | none =>
      { db with
          productos := db.productos ++
            [{ id := db.nextId, name := "Producto Desconocido", price := 0,
               product_url := full_url, image_url := none, id_minorista := m.id,
               last_scraped_at := now }],
          nextId := db.nextId + 1 }
  | some existing =>
      let updated := { existing with last_scraped_at := now }
      { db with productos :=
          db.productos.map (fun q => if q.id == existing.id then updated else q) }

def discover_links (db : DB) (m : Minorista) (links : List String)
    (resolve : String → String → String) (now : ℕ) : DB :=
  links.foldl (discoverStep m resolve now) db

/-- Number of product rows at a given (url, retailer) pair. -/
def numProducts (db : DB) (url : String) (idm : ℕ) : ℕ :=
  (db.productos.filter
    (fun p => p.product_url == url && p.id_minorista == idm)).length

/-- Database well-formedness: primary keys are distinct and below the
autoincrement counter. -/
def dbWF (db : DB) : Prop :=
  (∀ p ∈ db.productos, p.id < db.nextId) ∧ (db.productos.map (fun p => p.id)).Nodup

instance (db : DB) : Decidable (dbWF db) := by
  unfold dbWF
  infer_instance

/-! ## Concrete instances used in the closed theorems -/

def emptyDB : DB := { productos := [], historial := [], nextId := 0 }

/-- One product previously scraped at price 100 with its history row. -/
def dbOneProduct : DB :=
  { productos := [{ id := 0, name := "N", price := 100, product_url := "u",
                    image_url := none, id_minorista := 1, last_scraped_at := 5 }],
    historial := [{ id_producto := 0, id_minorista := 1, precio := 100 }],
    nextId := 1 }

/-- A resolver for link lists that already hold absolute URLs
(`urljoin(base, absolute) = absolute`). -/
def idResolve : String → String → String := fun _ link => link

/-- A retailer whose price selector is missing. -/
def minoristaNoPriceSelector : Minorista :=
  { id := 1, nombre := "Tienda", url_base := "http://t", activo := true,
    name_selector := some "h1", price_selector := none, image_selector := none }

/-- A page that navigates fine and yields name and price text. -/
def pageEnv100 : PageEnv :=
  { goto_fails := false, name_text := some "Nombre", price_text := some "100",
    image_src := none }

/-- Ten anchors: seven distinct URLs, the last three resolving to the same
absolute URL as the first anchor. -/
def discoveryLinks10 : List String :=
  ["u1", "u2", "u3", "u4", "u5", "u6", "u7", "u1", "u1", "u1"]

def minoristaDiscovery : Minorista :=
  { id := 1, nombre := "Tienda", url_base := "http://t", activo := true,
    name_selector := none, price_selector := none, image_selector := none }

/-- A sequential schedule of 20 scrape tasks, each acquiring then releasing. -/
def semTrace20 : List SemEvent := (List.range 20).flatMap taskTrace

/-! # Theorems -/

/-! ## Retry supervisor lemmas -/

theorem retryGo_all_fail {σ ε α : Type} (f : ℕ → σ → σ × Except ε α) (e : ℕ → ε)
    (hf : ∀ k s, (f k s).2 = .error (e k)) :
    ∀ (remaining attempt : ℕ) (s : σ),
      (retryGo f attempt remaining s).2 = (.error (e (attempt + remaining)), remaining + 1) := by
  intro remaining
  induction remaining with
  | zero =>
      intro attempt s
      simp only [retryGo, Nat.add_zero]
      exact congrArg (fun r => (r, 1)) (hf attempt s)
  | succ n ih =>
      intro attempt s
      have h := hf attempt s
      simp only [retryGo]
      cases hfa : f attempt s with
      | mk s2 r2 =>
          rw [hfa] at h
          simp only at h
          subst h
          simp only []
          have hrec := ih (attempt + 1) s2
          have harith : attempt + 1 + n = attempt + (n + 1) := by omega
          rw [harith] at hrec
          rw [Prod.ext_iff] at hrec
          simp only [hrec.1, hrec.2]

theorem retryGo_const_fail {σ ε α : Type} (f : ℕ → σ → σ × Except ε α) (E : ε)
    (hf : ∀ k s, f k s = (s, .error E)) :
    ∀ (remaining attempt : ℕ) (s : σ),
      retryGo f attempt remaining s = (s, .error E, remaining + 1) := by
  intro remaining
  induction remaining with
  | zero =>
      intro attempt s
      simp only [retryGo, hf attempt s]
  | succ n ih =>
      intro attempt s
      simp only [retryGo, hf attempt s]
      simp only [ih]

/-- C5: an operation failing on every attempt is invoked `max_retries + 1`
times (4 for the default 3) and the last exception is re-raised. -/
theorem c5_retry_exhaustion {σ ε α : Type} (f : ℕ → σ → σ × Except ε α) (e : ℕ → ε)
    (max_retries : ℕ) (s : σ) (hf : ∀ k s, (f k s).2 = .error (e k)) :
    (retry_with_exponential_backoff f max_retries s).2 =
      (.error (e max_retries), max_retries + 1) := by
  have h := retryGo_all_fail f e hf max_retries 0 s
  simpa using h

theorem c5_retry_exhaustion_witness :
    (retry_with_exponential_backoff
        (fun k (_ : Unit) => ((), (Except.error k : Except ℕ Unit))) 3 ()).2 =
      (Except.error 3, 4) :=
  c5_retry_exhaustion (fun k _ => ((), Except.error k)) (fun k => k) 3 () (fun _ _ => rfl)

/-! ## C3: price-text normalization -/

/-- C3: the claim (and the repository's own integration test) expect the price
text `$1,234.56` to parse to `1234.56`, but after comma-to-period replacement
the cleaned string `1.234.56` has two periods and `float()` raises ValueError
(`parsePrice = none`).  Empty and symbol-only texts do parse to `0.00`; a
non-empty unparseable cleaned string raises instead of yielding `0.00`. -/
theorem c3_price_parse_behavior :
    parsePrice "$1,234.56".data = none ∧
    parsePrice "  $ 1,234.56  ".data = none ∧
    parsePrice "".data = some 0 ∧
    parsePrice "$".data = some 0 := by
  decide

/-! ## C1: the two persistence writes commit separately -/

theorem update_scraped_data_historial (db : DB) (url : String) (idm : ℕ) (name : String)
    (price : ℚ) (img : Option String) (now : ℕ) :
    (update_scraped_data db url idm name price img now).2.historial = db.historial := by
  rcases h : get_by_url_and_retailer db url idm with _ | p <;>
    simp [update_scraped_data, h]

/-- C1 counterexample: with one product at price 100 (and its one history
row), a scrape at price 120 whose history insert fails leaves the database in
a state different from the initial one: the product update is committed (price
120) while no history row was appended — partial state survives the failed
operation, contradicting the claimed atomic rollback. -/
theorem c1_atomicity_counterexample :
    (let r := scrape_persist dbOneProduct "u" 1 "N" 120 none 6 (some .sqlAlchemyError)
     r.2 = .error .sqlAlchemyError ∧ r.1 ≠ dbOneProduct ∧
     r.1.productos.map (fun p => p.price) = [120] ∧
     r.1.historial = dbOneProduct.historial) := by
  decide

/-- C1 amended: the product upsert and the price-history append are separate
committed transactions.  When the history append fails, the exception
propagates, no history row is appended, and the already-committed product
upsert survives; on success exactly one history row is appended after the
upsert. -/
theorem c1_amended_partial_commit (db : DB) (url : String) (idm : ℕ) (name : String)
    (price : ℚ) (img : Option String) (now : ℕ) (e : PyExc) :
    (scrape_persist db url idm name price img now (some e)).2 = .error e ∧
    (scrape_persist db url idm name price img now (some e)).1.productos =
      (update_scraped_data db url idm name price img now).2.productos ∧
    (scrape_persist db url idm name price img now (some e)).1.historial = db.historial ∧
    (scrape_persist db url idm name price img now none).1.historial =
      db.historial ++
        [{ id_producto := (update_scraped_data db url idm name price img now).1.id,
           id_minorista := idm, precio := price }] := by
  refine ⟨rfl, rfl, ?_, ?_⟩
  · exact update_scraped_data_historial db url idm name price img now
  · show (create_price_record _ _ _ _).historial = _
    simp [create_price_record, update_scraped_data_historial]

/-! ## C4: PriceChanged derivation -/

/-- C4: the handler derives a PriceChanged event exactly when an old price is
present and differs from the new one, with `change_amount = price - old` and
`change_percentage = (price - old) / old * 100`, 0 when the old price is 0
(old prices are non-negative: they are previously stored scraped prices).
Concretely, scraping 100 then 120 through the scrape operation produces first
an event with no old price (no PriceChanged) and then one with old price 100,
from which the handler derives exactly one PriceChanged with amount 20 and
percentage 20; an unchanged price derives none. -/
theorem c4_price_changed_derivation :
    (∀ p : ℚ, on_product_scraped none p = none) ∧
    (∀ o p : ℚ, 0 ≤ o →
      on_product_scraped (some o) p =
        if o = p then none
        else some { change_amount := p - o,
                    change_percentage := if o = 0 then 0 else ((p - o) / o) * 100 }) ∧
    ((scrape_persist emptyDB "u" 1 "N" 100 none 5 none).2 =
        .ok { product_id := 0, retailer_id := 1, price := 100, old_price := none,
              is_new_product := true } ∧
     (scrape_persist (scrape_persist emptyDB "u" 1 "N" 100 none 5 none).1
        "u" 1 "N" 120 none 6 none).2 =
        .ok { product_id := 0, retailer_id := 1, price := 120, old_price := some 100,
              is_new_product := false }) ∧
    on_product_scraped (some 100) 120 =
      some { change_amount := 20, change_percentage := 20 } ∧
    on_product_scraped (some 100) 100 = none := by
  refine ⟨fun p => rfl, ?_, by decide, ?_, by simp [on_product_scraped]⟩
  · intro o p h
    unfold on_product_scraped
    by_cases hop : o = p
    · simp [hop]
    · simp only [ne_eq, hop, not_false_eq_true, if_true, if_neg hop]
      rcases h.lt_or_eq with h0 | h0
      · rw [if_pos h0, if_neg (ne_of_gt h0)]
        simp
      · rw [← h0]
        norm_num
  · norm_num [on_product_scraped]

theorem c4_price_changed_derivation_witness :
    (0 : ℚ) ≤ 100 ∧
    on_product_scraped (some 100) 120 =
      some { change_amount := 20, change_percentage := 20 } := by
  constructor
  · norm_num
  · rw [c4_price_changed_derivation.2.1 100 120 (by norm_num)]
    norm_num

/-! ## C2: the validation error is retried and surfaces as a 500 -/

theorem scrape_internal_missing_selectors (resolve : String → String → String)
    (env : PageEnv) (url : String) (idm : ℕ) (s : DB) (ms : List Minorista) (now : ℕ)
    (hf : Option PyExc) (m : Minorista) (hm : find_minorista ms idm = some m)
    (hsel : (truthyStr m.name_selector && truthyStr m.price_selector) = false)
    (hgoto : env.goto_fails = false) :
    scrape_product_internal resolve env url idm s ms now hf =
      (s, .error (.httpExc 500 "error inesperado")) := by
  simp only [scrape_product_internal, hm, scrape_product_from_page, hgoto, hsel,
    Bool.false_eq_true, if_false, Bool.not_false, if_true]

/-- C2 counterexample: for a retailer whose price selector is missing, the
public entry point (`scrape_product_data` with the default `max_retries=3`)
executes the underlying operation 4 times — not exactly once — and the
surfaced error is the generic 500, not the 400 ValidationError, because
`_scrape_product_internal` catches the HTTPException under `except Exception`
and the retry wrapper retries every exception. -/
theorem c2_validation_retry_counterexample :
    (let r := scrape_product_data idResolve (fun _ => pageEnv100) "u" 1 emptyDB
                [minoristaNoPriceSelector] 5 (fun _ => none) 3
     r.2.2 = 4 ∧ r.2.1 = .error (.httpExc 500 "error inesperado") ∧
     ¬(r.2.2 = 1) ∧
     r.2.1 ≠ .error (.httpExc 400 "selectores no configurados")) := by
  decide

/-- C2 amended: when the retailer's name or price selector is falsy and
navigation succeeds, every attempt raises the validation HTTPException, which
is wrapped into a 500 and retried like any exception: the operation executes
`max_retries + 1` times, the database is untouched, and the caller receives
the 500-equivalent, not the 400 ValidationError. -/
theorem c2_amended_validation_retried (resolve : String → String → String)
    (envs : ℕ → PageEnv) (url : String) (idm : ℕ) (db : DB) (ms : List Minorista)
    (now : ℕ) (hfs : ℕ → Option PyExc) (n : ℕ) (m : Minorista)
    (hm : find_minorista ms idm = some m)
    (hsel : (truthyStr m.name_selector && truthyStr m.price_selector) = false)
    (hgoto : ∀ k, (envs k).goto_fails = false) :
    scrape_product_data resolve envs url idm db ms now hfs n =
      (db, .error (.httpExc 500 "error inesperado"), n + 1) := by
  unfold scrape_product_data retry_with_exponential_backoff
  exact retryGo_const_fail _ _
    (fun k s =>
      scrape_internal_missing_selectors resolve (envs k) url idm s ms now (hfs k) m hm
        hsel (hgoto k)) n 0 db

theorem c2_amended_validation_retried_witness :
    scrape_product_data idResolve (fun _ => pageEnv100) "u" 1 emptyDB
      [minoristaNoPriceSelector] 5 (fun _ => none) 3 =
      (emptyDB, .error (.httpExc 500 "error inesperado"), 4) :=
  c2_amended_validation_retried idResolve (fun _ => pageEnv100) "u" 1 emptyDB
    [minoristaNoPriceSelector] 5 (fun _ => none) 3 minoristaNoPriceSelector
    (by decide) (by decide) (fun _ => rfl)

/-! ## Chunking lemmas -/

theorem chunkListF_irrel {α : Type} (bs : ℕ) :
    ∀ (fuel1 fuel2 : ℕ) (l : List α), l.length ≤ fuel1 → l.length ≤ fuel2 →
      chunkListF bs fuel1 l = chunkListF bs fuel2 l := by
  intro fuel1
  induction fuel1 with
  | zero =>
      intro fuel2 l h1 h2
      cases l with
      | nil => cases fuel2 <;> rfl
      | cons x xs => simp at h1
  | succ n ih =>
      intro fuel2 l h1 h2
      cases l with
      | nil => cases fuel2 <;> rfl
      | cons x xs =>
          cases fuel2 with
          | zero => simp at h2
          | succ m =>
              simp only [chunkListF]
              congr 1
              apply ih
              · simp only [List.length_drop]
                simp only [List.length_cons] at h1
                omega
              · simp only [List.length_drop]
                simp only [List.length_cons] at h2
                omega

theorem chunkList_cons {α : Type} (bs : ℕ) (x : α) (xs : List α) :
    chunkList bs (x :: xs) =
      (x :: xs.take (bs - 1)) :: chunkList bs (xs.drop (bs - 1)) := by
  show chunkListF bs (xs.length + 1) (x :: xs) = _
  simp only [chunkListF]
  congr 1
  apply chunkListF_irrel
  · simp only [List.length_drop]
    omega
  · exact le_rfl

theorem chunkList_join_aux {α : Type} (bs : ℕ) :
    ∀ (n : ℕ) (l : List α), l.length ≤ n → (chunkList bs l).flatten = l := by
  intro n
  induction n with
  | zero =>
      intro l h
      cases l with
      | nil => rfl
      | cons x xs => simp at h
  | succ n ih =>
      intro l h
      cases l with
      | nil => rfl
      | cons x xs =>
          rw [chunkList_cons]
          simp only [List.flatten_cons]
          rw [ih (xs.drop (bs - 1)) ?_]
          · simp [List.take_append_drop]
          · simp only [List.length_drop]
            simp only [List.length_cons] at h
            omega

theorem chunkList_join {α : Type} (bs : ℕ) (l : List α) : (chunkList bs l).flatten = l :=
  chunkList_join_aux bs l.length l le_rfl

theorem chunkList_ne_nil_aux {α : Type} (bs : ℕ) :
    ∀ (n : ℕ) (l : List α), l.length ≤ n → ∀ c ∈ chunkList bs l, c ≠ [] := by
  intro n
  induction n with
  | zero =>
      intro l h c hc
      cases l with
      | nil => simp [chunkList, chunkListF] at hc
      | cons x xs => simp at h
  | succ n ih =>
      intro l h c hc
      cases l with
      | nil => simp [chunkList, chunkListF] at hc
      | cons x xs =>
          rw [chunkList_cons] at hc
          rcases List.mem_cons.mp hc with h1 | h1
          · subst h1
            simp
          · refine ih (xs.drop (bs - 1)) ?_ c h1
            simp only [List.length_drop]
            simp only [List.length_cons] at h
            omega

theorem chunkList_ne_nil {α : Type} (bs : ℕ) (l : List α) :
    ∀ c ∈ chunkList bs l, c ≠ [] :=
  chunkList_ne_nil_aux bs l.length l le_rfl

theorem chunkList_of_length_le {α : Type} (bs : ℕ) (x : α) (xs : List α)
    (h : xs.length ≤ bs - 1) : chunkList bs (x :: xs) = [x :: xs] := by
  rw [chunkList_cons, List.take_of_length_le h, List.drop_eq_nil_of_le h]
  rfl

/-! ## C10: empty product list short-circuits -/

/-- C10: on an empty product list `scrape_products_concurrently` returns the
zeroed results without the duration keys and publishes no event, while on a
non-empty list the duration keys are always present and exactly one
ScrapingStarted and one ScrapingCompleted event are published. -/
theorem c10_empty_product_list :
    (∀ d : ℚ, scrape_products_concurrently [] d =
      ({ total_products := 0, successful := 0, failed := 0, errors := [],
         duration_seconds := none, products_per_second := none }, [])) ∧
    (∀ (items : List (ℕ × Bool)) (d : ℚ), items ≠ [] →
      (scrape_products_concurrently items d).1.duration_seconds = some d ∧
      (scrape_products_concurrently items d).1.products_per_second =
        some (if 0 < d then (items.length : ℚ) / d else 0) ∧
      (scrape_products_concurrently items d).2 =
        [.scraping_started items.length,
         .scraping_completed (scrape_products_concurrently items d).1]) := by
  constructor
  · intro d
    rfl
  · intro items d hne
    cases items with
    | nil => exact absurd rfl hne
    | cons it rest => exact ⟨rfl, rfl, rfl⟩

theorem c10_empty_product_list_witness :
    ([((1 : ℕ), true)] : List (ℕ × Bool)) ≠ [] ∧
    (scrape_products_concurrently [(1, true)] 2).1.duration_seconds = some 2 :=
  ⟨by decide, (c10_empty_product_list.2 [(1, true)] 2 (by decide)).1⟩

/-! ## C9: counter and error-list invariants -/

theorem runTasks_counts :
    ∀ (items : List (ℕ × Bool)) (r : ScrapeResults),
      (runTasks items r).total_products = r.total_products ∧
      (runTasks items r).successful + (runTasks items r).failed =
        r.successful + r.failed + items.length ∧
      (runTasks items r).errors.length + r.failed =
        r.errors.length + (runTasks items r).failed := by
  intro items
  induction items with
  | nil =>
      intro r
      exact ⟨rfl, by simp [runTasks], by simp [runTasks]⟩
  | cons it rest ih =>
      intro r
      cases it with
      | mk pid success =>
          cases success
          · simp only [runTasks]
            have h := ih { r with failed := r.failed + 1, errors := r.errors ++ [pid] }
            refine ⟨h.1, ?_, ?_⟩
            · have h2 := h.2.1
              simp only [List.length_cons] at h2 ⊢
              omega
            · have h2 := h.2.2
              simp only [List.length_append, List.length_cons, List.length_nil] at h2 ⊢
              omega
          · simp only [runTasks]
            have h := ih { r with successful := r.successful + 1 }
            refine ⟨h.1, ?_, ?_⟩
            · have h2 := h.2.1
              simp only [List.length_cons] at h2 ⊢
              omega
            · exact h.2.2

theorem scrape_products_concurrently_counts (items : List (ℕ × Bool)) (d : ℚ) :
    (scrape_products_concurrently items d).1.total_products = items.length ∧
    (scrape_products_concurrently items d).1.successful +
      (scrape_products_concurrently items d).1.failed = items.length ∧
    (scrape_products_concurrently items d).1.errors.length =
      (scrape_products_concurrently items d).1.failed := by
  cases items with
  | nil => exact ⟨rfl, rfl, rfl⟩
  | cons it rest =>
      have h := runTasks_counts (it :: rest)
        { total_products := (it :: rest).length, successful := 0, failed := 0,
          errors := [], duration_seconds := none, products_per_second := none }
      have hres :
          (scrape_products_concurrently (it :: rest) d).1.total_products =
              (runTasks (it :: rest)
                { total_products := (it :: rest).length, successful := 0, failed := 0,
                  errors := [], duration_seconds := none,
                  products_per_second := none }).total_products ∧
            (scrape_products_concurrently (it :: rest) d).1.successful =
              (runTasks (it :: rest)
                { total_products := (it :: rest).length, successful := 0, failed := 0,
                  errors := [], duration_seconds := none,
                  products_per_second := none }).successful ∧
            (scrape_products_concurrently (it :: rest) d).1.failed =
              (runTasks (it :: rest)
                { total_products := (it :: rest).length, successful := 0, failed := 0,
                  errors := [], duration_seconds := none,
                  products_per_second := none }).failed ∧
            (scrape_products_concurrently (it :: rest) d).1.errors =
              (runTasks (it :: rest)
                { total_products := (it :: rest).length, successful := 0, failed := 0,
                  errors := [], duration_seconds := none,
                  products_per_second := none }).errors :=
        ⟨rfl, rfl, rfl, rfl⟩
      rcases h with ⟨h1, h2, h3⟩
      rcases hres with ⟨e1, e2, e3, e4⟩
      refine ⟨by rw [e1, h1], ?_, ?_⟩
      · rw [e2, e3]
        simpa using h2
      · rw [e4, e3]
        simpa using h3

theorem runBatches_counts (cd : ℕ → ℚ) :
    ∀ (l : List (ℕ × List (ℕ × Bool))) (acc : BatchTotals) (tr : List BusEvent),
      (runBatches cd l acc tr).1.total_products = acc.total_products ∧
      (runBatches cd l acc tr).1.successful + (runBatches cd l acc tr).1.failed =
        acc.successful + acc.failed + (l.map (fun ib => ib.2.length)).sum ∧
      (runBatches cd l acc tr).1.errors.length + acc.failed =
        acc.errors.length + (runBatches cd l acc tr).1.failed ∧
      (runBatches cd l acc tr).1.batches_processed =
        acc.batches_processed + l.length := by
  intro l
  induction l with
  | nil =>
      intro acc tr
      exact ⟨rfl, by simp [runBatches], by simp [runBatches], by simp [runBatches]⟩
  | cons ib rest ih =>
      intro acc tr
      cases ib with
      | mk i batch =>
          simp only [runBatches]
          have hb := scrape_products_concurrently_counts batch (cd i)
          have h := ih
            { acc with
                successful := acc.successful +
                  (scrape_products_concurrently batch (cd i)).1.successful,
                failed := acc.failed + (scrape_products_concurrently batch (cd i)).1.failed,
                errors := acc.errors ++ (scrape_products_concurrently batch (cd i)).1.errors,
                batches_processed := acc.batches_processed + 1 }
            (tr ++ (scrape_products_concurrently batch (cd i)).2)
          refine ⟨h.1, ?_, ?_, ?_⟩
          · have h2 := h.2.1
            simp only [List.map_cons, List.sum_cons] at h2 ⊢
            omega
          · have h2 := h.2.2.1
            simp only [List.length_append] at h2 ⊢
            have hb3 := hb.2.2
            omega
          · have h2 := h.2.2.2
            simp only [List.length_cons] at h2 ⊢
            omega

/-- C9: for every run, `successful + failed = total_products` and the error
list has exactly one entry per failed item, both for
`scrape_products_concurrently` and for the aggregate of
`process_products_in_batches`; each item contributes to exactly one counter
and a failure never prevents the remaining items from being counted. -/
theorem c9_count_invariants :
    (∀ (items : List (ℕ × Bool)) (d : ℚ),
      (scrape_products_concurrently items d).1.successful +
        (scrape_products_concurrently items d).1.failed =
        (scrape_products_concurrently items d).1.total_products ∧
      (scrape_products_concurrently items d).1.errors.length =
        (scrape_products_concurrently items d).1.failed) ∧
    (∀ (items : List (ℕ × Bool)) (bs : ℕ) (cd : ℕ → ℚ),
      (process_products_in_batches items bs cd).1.successful +
        (process_products_in_batches items bs cd).1.failed =
        (process_products_in_batches items bs cd).1.total_products ∧
      (process_products_in_batches items bs cd).1.errors.length =
        (process_products_in_batches items bs cd).1.failed) := by
  constructor
  · intro items d
    have h := scrape_products_concurrently_counts items d
    exact ⟨by rw [h.1]; exact h.2.1, h.2.2⟩
  · intro items bs cd
    have h := runBatches_counts cd ((chunkList bs items).enum)
      { total_products := items.length, successful := 0, failed := 0, errors := [],
        batches_processed := 0 } []
    have hsum : (((chunkList bs items).enum).map (fun ib => ib.2.length)).sum =
        items.length := by
      have henum : ((chunkList bs items).enum).map (fun ib => ib.2.length) =
          ((chunkList bs items).enum.map Prod.snd).map List.length := by
        rw [List.map_map]
        rfl
      rw [henum, List.enum_map_snd]
      rw [← List.length_flatten, chunkList_join]
    constructor
    · have h1 := h.1
      have h2 := h.2.1
      rw [hsum] at h2
      simp only [process_products_in_batches]
      simp only at h1 h2
      omega
    · have h3 := h.2.2.1
      simp only [process_products_in_batches]
      simp only [List.length_nil] at h3
      omega

/-! ## C7: ScrapingStarted / ScrapingCompleted are published per chunk -/

theorem runBatches_trace (cd : ℕ → ℚ) :
    ∀ (l : List (ℕ × List (ℕ × Bool))) (acc : BatchTotals) (tr : List BusEvent),
      (runBatches cd l acc tr).2 =
        tr ++ (l.map (fun ib => (scrape_products_concurrently ib.2 (cd ib.1)).2)).flatten := by
  intro l
  induction l with
  | nil =>
      intro acc tr
      simp [runBatches]
  | cons ib rest ih =>
      intro ac tr
      cases ib with
      | mk i batch =>
          simp only [runBatches, List.map_cons, List.flatten_cons]
          rw [ih]
          rw [List.append_assoc]

theorem countStarted_append (a b : List BusEvent) :
    countStarted (a ++ b) = countStarted a + countStarted b := by
  simp [countStarted, List.filter_append]

theorem countCompleted_append (a b : List BusEvent) :
    countCompleted (a ++ b) = countCompleted a + countCompleted b := by
  simp [countCompleted, List.filter_append]

theorem scrape_trace_one (items : List (ℕ × Bool)) (d : ℚ) (h : items ≠ []) :
    countStarted (scrape_products_concurrently items d).2 = 1 ∧
    countCompleted (scrape_products_concurrently items d).2 = 1 := by
  cases items with
  | nil => exact absurd rfl h
  | cons it rest => exact ⟨rfl, rfl⟩

theorem countStarted_flatten_batches (cd : ℕ → ℚ) :
    ∀ (L : List (ℕ × List (ℕ × Bool))), (∀ p ∈ L, p.2 ≠ []) →
      countStarted
          ((L.map (fun ib => (scrape_products_concurrently ib.2 (cd ib.1)).2)).flatten) =
        L.length ∧
      countCompleted
          ((L.map (fun ib => (scrape_products_concurrently ib.2 (cd ib.1)).2)).flatten) =
        L.length := by
  intro L
  induction L with
  | nil => intro _; exact ⟨rfl, rfl⟩
  | cons p rest ih =>
      intro hne
      simp only [List.map_cons, List.flatten_cons, countStarted_append,
        countCompleted_append, List.length_cons]
      have h1 := scrape_trace_one p.2 (cd p.1) (hne p (List.mem_cons_self p rest))
      have h2 := ih (fun q hq => hne q (List.mem_cons_of_mem p hq))
      omega

/-- C7 counterexample: a Batch Orchestrator run over two products with batch
size 1 (two chunks) publishes two ScrapingStarted and two ScrapingCompleted
events — not exactly one of each as the claim states. -/
theorem c7_per_run_events_counterexample :
    countStarted (process_products_in_batches [(1, true), (2, true)] 1 (fun _ => 1)).2 = 2 ∧
    countCompleted (process_products_in_batches [(1, true), (2, true)] 1 (fun _ => 1)).2 = 2 ∧
    ¬(countStarted (process_products_in_batches [(1, true), (2, true)] 1 (fun _ => 1)).2 = 1) := by
  decide

/-- C7 amended: each chunk publishes its own ScrapingStarted before its tasks
and its own ScrapingCompleted (carrying that chunk's per-chunk results) after
them: a run over k chunks publishes exactly k of each, so exactly one of each
is published precisely when the whole product list fits in a single chunk.
The aggregated BatchResult is returned by the orchestrator, not published. -/
theorem c7_amended_per_chunk_events (items : List (ℕ × Bool)) (bs : ℕ) (cd : ℕ → ℚ) :
    (process_products_in_batches items bs cd).2 =
      (((chunkList bs items).enum).map
        (fun ib => (scrape_products_concurrently ib.2 (cd ib.1)).2)).flatten ∧
    countStarted (process_products_in_batches items bs cd).2 =
      (chunkList bs items).length ∧
    countCompleted (process_products_in_batches items bs cd).2 =
      (chunkList bs items).length ∧
    (items ≠ [] → items.length ≤ bs →
      countStarted (process_products_in_batches items bs cd).2 = 1 ∧
      countCompleted (process_products_in_batches items bs cd).2 = 1) := by
  have htrace : (process_products_in_batches items bs cd).2 =
      (((chunkList bs items).enum).map
        (fun ib => (scrape_products_concurrently ib.2 (cd ib.1)).2)).flatten := by
    simp only [process_products_in_batches]
    rw [runBatches_trace]
    simp
  have hne : ∀ p ∈ (chunkList bs items).enum, p.2 ≠ [] := by
    intro p hp
    apply chunkList_ne_nil bs items
    have := List.mem_enum_iff_getElem?.mp hp
    exact List.getElem?_mem this
  have hcount := countStarted_flatten_batches cd ((chunkList bs items).enum) hne
  have hlen : ((chunkList bs items).enum).length = (chunkList bs items).length :=
    List.enum_length
  refine ⟨htrace, ?_, ?_, ?_⟩
  · rw [htrace, hcount.1, hlen]
  · rw [htrace, hcount.2, hlen]
  · intro h0 hbs
    cases items with
    | nil => exact absurd rfl h0
    | cons x xs =>
        have hone : chunkList bs (x :: xs) = [x :: xs] := by
          apply chunkList_of_length_le
          simp only [List.length_cons] at hbs
          omega
        constructor
        · rw [htrace, hcount.1, hlen, hone]
          rfl
        · rw [htrace, hcount.2, hlen, hone]
          rfl

theorem c7_amended_per_chunk_events_witness :
    (([((1 : ℕ), true)] : List (ℕ × Bool)) ≠ [] ∧
      ([((1 : ℕ), true)] : List (ℕ × Bool)).length ≤ 50) ∧
    countStarted (process_products_in_batches [(1, true)] 50 (fun _ => 1)).2 = 1 :=
  ⟨⟨by decide, by decide⟩,
   ((c7_amended_per_chunk_events [(1, true)] 50 (fun _ => 1)).2.2.2 (by decide)
      (by decide)).1⟩

/-! ## C8: discovery creates at most one placeholder per distinct pair -/

theorem get_none_iff_numProducts_zero (db : DB) (url : String) (idm : ℕ) :
    get_by_url_and_retailer db url idm = none ↔ numProducts db url idm = 0 := by
  simp only [get_by_url_and_retailer, numProducts, List.find?_eq_none,
    List.length_eq_zero, List.filter_eq_nil_iff]

theorem get_some_mem_and_matches (db : DB) (url : String) (idm : ℕ) (p : Producto)
    (h : get_by_url_and_retailer db url idm = some p) :
    p ∈ db.productos ∧ p.product_url = url ∧ p.id_minorista = idm := by
  have hmem := List.mem_of_find?_eq_some h
  have hpred := List.find?_some h
  simp only [Bool.and_eq_true, beq_iff_eq] at hpred
  exact ⟨hmem, hpred.1, hpred.2⟩

theorem numProducts_pos_of_get_some (db : DB) (url : String) (idm : ℕ) (p : Producto)
    (h : get_by_url_and_retailer db url idm = some p) : numProducts db url idm ≠ 0 := by
  obtain ⟨hmem, h1, h2⟩ := get_some_mem_and_matches db url idm p h
  simp only [numProducts, ne_eq, List.length_eq_zero, List.filter_eq_nil_iff]
  intro hall
  have := hall p hmem
  simp [h1, h2] at this

theorem discoverStep_numProducts (m : Minorista) (resolve : String → String → String)
    (now : ℕ) (db : DB) (link : String) (url : String) (hwf : dbWF db) :
    numProducts (discoverStep m resolve now db link) url m.id =
      if resolve m.url_base link = url ∧ numProducts db url m.id = 0 then 1
      else numProducts db url m.id := by
  cases hget : get_by_url_and_retailer db (resolve m.url_base link) m.id with
  | none =>
      have hzero := (get_none_iff_numProducts_zero db (resolve m.url_base link) m.id).mp hget
      simp only [discoverStep, hget]
      by_cases hA : resolve m.url_base link = url
      · subst hA
        rw [if_pos ⟨rfl, hzero⟩]
        simp only [numProducts, List.filter_append]
        rw [List.length_append]
        have : numProducts db (resolve m.url_base link) m.id = 0 := hzero
        simp only [numProducts] at this
        rw [this]
        simp
      · rw [if_neg (fun hc => hA hc.1)]
        simp only [numProducts, List.filter_append]
        rw [List.length_append]
        have hnew : (List.filter
            (fun (p : Producto) => p.product_url == url && p.id_minorista == m.id)
            [{ id := db.nextId, name := "Producto Desconocido", price := 0,
               product_url := resolve m.url_base link, image_url := none,
               id_minorista := m.id, last_scraped_at := now }]).length = 0 := by
          simp [hA]
        rw [hnew]
        omega
  | some ex =>
      obtain ⟨hmem, hurl, hidm⟩ :=
        get_some_mem_and_matches db (resolve m.url_base link) m.id ex hget
      have hpos := numProducts_pos_of_get_some db (resolve m.url_base link) m.id ex hget
      have hcond : ¬(resolve m.url_base link = url ∧ numProducts db url m.id = 0) := by
        rintro ⟨hA, hB⟩
        rw [hA] at hpos
        exact hpos hB
      rw [if_neg hcond]
      simp only [discoverStep, hget]
      simp only [numProducts]
      have hpt : ∀ q ∈ db.productos,
          ((fun p => p.product_url == url && p.id_minorista == m.id) ∘
            (fun q => if q.id == ex.id then { ex with last_scraped_at := now } else q)) q =
          (fun p => p.product_url == url && p.id_minorista == m.id) q := by
        intro q hq
        by_cases hid : q.id = ex.id
        · have hq_ex : q = ex := List.inj_on_of_nodup_map hwf.2 hq hmem hid
          subst hq_ex
          simp
        · simp [Function.comp, hid]
      rw [List.filter_map, List.length_map, List.filter_congr hpt]

theorem discoverStep_wf (m : Minorista) (resolve : String → String → String) (now : ℕ)
    (db : DB) (link : String) (hwf : dbWF db) :
    dbWF (discoverStep m resolve now db link) := by
  cases hget : get_by_url_and_retailer db (resolve m.url_base link) m.id with
  | none =>
      simp only [discoverStep, hget]
      constructor
      · intro p hp
        simp only [List.mem_append, List.mem_singleton] at hp
        rcases hp with hp | hp
        · have := hwf.1 p hp
          show p.id < db.nextId + 1
          omega
        · subst hp
          show db.nextId < db.nextId + 1
          omega
      · rw [List.map_append]
        rw [List.nodup_append]
        refine ⟨hwf.2, by simp, ?_⟩
        intro a ha
        simp only [List.mem_map] at ha
        obtain ⟨p, hp, hpa⟩ := ha
        have := hwf.1 p hp
        simp only [List.map_cons, List.map_nil, List.mem_singleton]
        omega
  | some ex =>
      obtain ⟨hmem, hurl, hidm⟩ :=
        get_some_mem_and_matches db (resolve m.url_base link) m.id ex hget
      simp only [discoverStep, hget]
      have hids : (db.productos.map
          (fun q => if q.id == ex.id then { ex with last_scraped_at := now } else q)).map
            (fun p => p.id) = db.productos.map (fun p => p.id) := by
        rw [List.map_map]
        apply List.map_congr_left
        intro q hq
        by_cases hid : q.id = ex.id
        · simp [Function.comp, hid]
        · simp [Function.comp, hid]
      constructor
      · intro p hp
        simp only [List.mem_map] at hp
        obtain ⟨q, hq, hqp⟩ := hp
        by_cases hid : q.id = ex.id
        · have hq_ex : q = ex := List.inj_on_of_nodup_map hwf.2 hq hmem hid
          subst hq_ex
          simp only [beq_self_eq_true, if_true] at hqp
          subst hqp
          simpa using hwf.1 q hq
        · rw [if_neg (by simpa using hid)] at hqp
          subst hqp
          exact hwf.1 q hq
      · rw [hids]
        exact hwf.2

theorem discover_links_numProducts (m : Minorista) (resolve : String → String → String)
    (now : ℕ) (url : String) :
    ∀ (links : List String) (db : DB), dbWF db →
      numProducts (discover_links db m links resolve now) url m.id =
        if url ∈ links.map (resolve m.url_base) ∧ numProducts db url m.id = 0 then 1
        else numProducts db url m.id := by
  intro links
  induction links with
  | nil =>
      intro db hwf
      simp [discover_links]
  | cons link rest ih =>
      intro db hwf
      have hstep := discoverStep_numProducts m resolve now db link url hwf
      have hrec := ih (discoverStep m resolve now db link)
        (discoverStep_wf m resolve now db link hwf)
      have hfold : discover_links db m (link :: rest) resolve now =
          discover_links (discoverStep m resolve now db link) m rest resolve now := rfl
      rw [hfold, hrec]
      by_cases hA : resolve m.url_base link = url <;>
        by_cases hB : numProducts db url m.id = 0
      · rw [if_pos ⟨hA, hB⟩] at hstep
        rw [hstep]
        rw [if_neg (by omega : ¬(url ∈ List.map (resolve m.url_base) rest ∧ (1 : ℕ) = 0))]
        rw [if_pos ⟨by simp [hA], hB⟩]
      · rw [if_neg (fun hc => hB hc.2)] at hstep
        rw [hstep]
        rw [if_neg (fun hc => hB hc.2), if_neg (fun hc => hB hc.2)]
      · rw [if_neg (fun hc => hA hc.1)] at hstep
        rw [hstep]
        have hmem : (url ∈ List.map (resolve m.url_base) (link :: rest)) ↔
            (url ∈ List.map (resolve m.url_base) rest) := by
          simp only [List.map_cons, List.mem_cons]
          constructor
          · rintro (h | h)
            · exact absurd h.symm hA
            · exact h
          · intro h
            exact Or.inr h
        by_cases hr : url ∈ List.map (resolve m.url_base) rest
        · rw [if_pos ⟨hr, hB⟩, if_pos ⟨hmem.mpr hr, hB⟩]
        · rw [if_neg (fun hc => hr hc.1), if_neg (fun hc => hr (hmem.mp hc.1))]
      · rw [if_neg (fun hc => hA hc.1)] at hstep
        rw [hstep]
        rw [if_neg (fun hc => hB hc.2), if_neg (fun hc => hB hc.2)]

/-- C8: discovery processes each anchor by resolving it against the retailer
base URL and the database effect has set semantics on the resolved URLs: after
a run, the number of rows at (url, retailer) is 1 when the url was discovered
and absent before, and unchanged otherwise — so at most one placeholder is
created per distinct pair, duplicates notwithstanding.  Concretely, a page
with 10 anchors of which 3 duplicate the first one's absolute URL yields
exactly 7 placeholder products on an empty database. -/
theorem c8_discovery_set_semantics (db : DB) (m : Minorista) (links : List String)
    (resolve : String → String → String) (now : ℕ) (url : String) (hwf : dbWF db) :
    (numProducts (discover_links db m links resolve now) url m.id =
      if url ∈ links.map (resolve m.url_base) ∧ numProducts db url m.id = 0 then 1
      else numProducts db url m.id) ∧
    (discover_links emptyDB minoristaDiscovery discoveryLinks10 idResolve
        5).productos.length = 7 :=
  ⟨discover_links_numProducts m resolve now url links db hwf, by decide⟩

theorem c8_discovery_set_semantics_witness :
    dbWF emptyDB ∧
    numProducts (discover_links emptyDB minoristaDiscovery discoveryLinks10 idResolve 5)
      "u1" minoristaDiscovery.id = 1 := by
  refine ⟨by decide, ?_⟩
  have h := (c8_discovery_set_semantics emptyDB minoristaDiscovery discoveryLinks10
    idResolve 5 "u1" (by decide)).1
  rw [h]
  decide

/-! ## C6: the Concurrency Controller bound -/

theorem countAcq_cons (t : ℕ) (e : SemEvent) (es : List SemEvent) :
    countAcq t (e :: es) =
      (if e = SemEvent.acq t then 1 else 0) + countAcq t es := by
  simp only [countAcq, List.filter_cons]
  by_cases h : e = SemEvent.acq t
  · simp only [h, beq_self_eq_true, if_true, List.length_cons, if_pos rfl]
    omega
  · simp [h]

theorem countRel_cons (t : ℕ) (e : SemEvent) (es : List SemEvent) :
    countRel t (e :: es) =
      (if e = SemEvent.rel t then 1 else 0) + countRel t es := by
  simp only [countRel, List.filter_cons]
  by_cases h : e = SemEvent.rel t
  · simp only [h, beq_self_eq_true, if_true, List.length_cons, if_pos rfl]
    omega
  · simp [h]

theorem semStep_card_le (cap : ℕ) (s : Finset ℕ) (e : SemEvent) (s2 : Finset ℕ)
    (hstep : semStep cap s e = some s2) (hs : s.card ≤ cap) : s2.card ≤ cap := by
  cases e with
  | acq t =>
      simp only [semStep] at hstep
      split at hstep
      · rename_i hcond
        cases hstep
        rw [Finset.card_insert_of_not_mem hcond.1]
        omega
      · cases hstep
  | rel t =>
      simp only [semStep] at hstep
      split at hstep
      · cases hstep
        exact le_trans (Finset.card_erase_le) hs
      · cases hstep

theorem semRun_take_card (cap : ℕ) :
    ∀ (tr : List SemEvent) (s s1 : Finset ℕ),
      semRun cap s tr = some s1 → s.card ≤ cap →
      ∀ n, ∃ s2, semRun cap s (tr.take n) = some s2 ∧ s2.card ≤ cap := by
  intro tr
  induction tr with
  | nil =>
      intro s s1 h hs n
      exact ⟨s, by simp [semRun], hs⟩
  | cons e es ih =>
      intro s s1 h hs n
      cases n with
      | zero => exact ⟨s, rfl, hs⟩
      | succ k =>
          simp only [semRun] at h
          cases hstep : semStep cap s e with
          | none =>
              rw [hstep] at h
              simp at h
          | some s3 =>
              rw [hstep] at h
              have hs3 := semStep_card_le cap s e s3 hstep hs
              obtain ⟨s2, h2, hc2⟩ := ih s3 s1 h hs3 k
              refine ⟨s2, ?_, hc2⟩
              simp only [List.take_succ_cons, semRun, hstep]
              exact h2

theorem semRun_count (cap : ℕ) :
    ∀ (tr : List SemEvent) (s s1 : Finset ℕ), semRun cap s tr = some s1 →
      ∀ t, countAcq t tr + (if t ∈ s then 1 else 0) =
           countRel t tr + (if t ∈ s1 then 1 else 0) := by
  intro tr
  induction tr with
  | nil =>
      intro s s1 h t
      simp only [semRun, Option.some.injEq] at h
      subst h
      rfl
  | cons e es ih =>
      intro s s1 h t
      simp only [semRun] at h
      cases hstep : semStep cap s e with
      | none =>
          rw [hstep] at h
          simp at h
      | some s3 =>
          rw [hstep] at h
          have hrec := ih s3 s1 h t
          rw [countAcq_cons, countRel_cons]
          cases e with
          | acq u =>
              simp only [semStep] at hstep
              split at hstep
              · rename_i hcond
                cases hstep
                by_cases htu : u = t
                · subst htu
                  rw [if_pos rfl, if_neg (fun hc => SemEvent.noConfusion hc),
                    if_neg hcond.1]
                  rw [if_pos (Finset.mem_insert_self u s)] at hrec
                  by_cases hs1 : u ∈ s1
                  · rw [if_pos hs1] at hrec ⊢
                    omega
                  · rw [if_neg hs1] at hrec ⊢
                    omega
                · have hne1 : ¬(SemEvent.acq u = SemEvent.acq t) := by
                    intro hc
                    injection hc with hc2
                    exact htu hc2
                  have hne2 : ¬(SemEvent.acq u = SemEvent.rel t) :=
                    fun hc => SemEvent.noConfusion hc
                  rw [if_neg hne1, if_neg hne2]
                  have hmem : (t ∈ insert u s) ↔ (t ∈ s) := by
                    rw [Finset.mem_insert]
                    exact or_iff_right (fun hc => htu hc.symm)
                  rw [if_congr hmem rfl rfl] at hrec
                  by_cases hts : t ∈ s
                  · rw [if_pos hts] at hrec ⊢
                    by_cases hs1 : t ∈ s1
                    · rw [if_pos hs1] at hrec ⊢
                      omega
                    · rw [if_neg hs1] at hrec ⊢
                      omega
                  · rw [if_neg hts] at hrec ⊢
                    by_cases hs1 : t ∈ s1
                    · rw [if_pos hs1] at hrec ⊢
                      omega
                    · rw [if_neg hs1] at hrec ⊢
                      omega
              · cases hstep
          | rel u =>
              simp only [semStep] at hstep
              split at hstep
              · rename_i hcond
                cases hstep
                by_cases htu : u = t
                · subst htu
                  rw [if_neg (fun hc => SemEvent.noConfusion hc), if_pos rfl,
                    if_pos hcond]
                  rw [if_neg (Finset.not_mem_erase u s)] at hrec
                  by_cases hs1 : u ∈ s1
                  · rw [if_pos hs1] at hrec ⊢
                    omega
                  · rw [if_neg hs1] at hrec ⊢
                    omega
                · have hne1 : ¬(SemEvent.rel u = SemEvent.acq t) :=
                    fun hc => SemEvent.noConfusion hc
                  have hne2 : ¬(SemEvent.rel u = SemEvent.rel t) := by
                    intro hc
                    injection hc with hc2
                    exact htu hc2
                  rw [if_neg hne1, if_neg hne2]
                  have hmem : (t ∈ s.erase u) ↔ (t ∈ s) := by
                    rw [Finset.mem_erase]
                    exact and_iff_right (fun he => htu he.symm)
                  rw [if_congr hmem rfl rfl] at hrec
                  by_cases hts : t ∈ s
                  · rw [if_pos hts] at hrec ⊢
                    by_cases hs1 : t ∈ s1
                    · rw [if_pos hs1] at hrec ⊢
                      omega
                    · rw [if_neg hs1] at hrec ⊢
                      omega
                  · rw [if_neg hts] at hrec ⊢
                    by_cases hs1 : t ∈ s1
                    · rw [if_pos hs1] at hrec ⊢
                      omega
                    · rw [if_neg hs1] at hrec ⊢
                      omega
              · cases hstep

theorem semRun_final_empty (cap : ℕ) (tr : List SemEvent) (s1 : Finset ℕ)
    (h : semRun cap ∅ tr = some s1)
    (hbal : ∀ t, countAcq t tr = countRel t tr) : s1 = ∅ := by
  rw [Finset.eq_empty_iff_forall_not_mem]
  intro t ht
  have hc := semRun_count cap tr ∅ s1 h t
  rw [hbal t] at hc
  rw [if_neg (Finset.not_mem_empty t), if_pos ht] at hc
  omega

theorem taskEvents_balance (t : ℕ) (tr : List SemEvent)
    (h : taskEvents t tr = [] ∨ taskEvents t tr = taskTrace t) :
    countAcq t tr = countRel t tr := by
  have hfa : countAcq t tr = countAcq t (taskEvents t tr) := by
    simp only [countAcq, taskEvents, List.filter_filter]
    congr 1
    apply List.filter_congr
    intro e he
    by_cases hc : e = SemEvent.acq t
    · subst hc
      simp [eventTid]
    · simp [hc]
  have hfr : countRel t tr = countRel t (taskEvents t tr) := by
    simp only [countRel, taskEvents, List.filter_filter]
    congr 1
    apply List.filter_congr
    intro e he
    by_cases hc : e = SemEvent.rel t
    · subst hc
      simp [eventTid]
    · simp [hc]
  rcases h with h | h <;> rw [hfa, hfr, h]
  · rfl
  · have h1 : countAcq t (taskTrace t) = 1 := by
      simp [countAcq, taskTrace, List.filter_cons, beq_iff_eq]
    have h2 : countRel t (taskTrace t) = 1 := by
      simp [countRel, taskTrace, List.filter_cons, beq_iff_eq]
    rw [h1, h2]

/-- C6: with the semaphore sized `max_concurrent_browsers *
max_concurrent_per_browser` (15 by default), every reachable point of a
cooperative schedule has at most that many tasks holding a slot — in
particular a batch of 20 tasks never has more than 15 in flight — and since
`async with semaphore` emits exactly one acquire and one release per task on
any exit path, a completed run ends with every slot released. -/
theorem c6_semaphore_bound (b p : ℕ) (tr : List SemEvent) (s1 : Finset ℕ)
    (hrun : semRun (semaphoreCapacity b p) ∅ tr = some s1) :
    (∀ n, ∃ s2, semRun (semaphoreCapacity b p) ∅ (tr.take n) = some s2 ∧
        s2.card ≤ semaphoreCapacity b p) ∧
    ((∀ t, taskEvents t tr = [] ∨ taskEvents t tr = taskTrace t) → s1 = ∅) ∧
    semaphoreCapacity 5 3 = 15 := by
  refine ⟨semRun_take_card _ tr ∅ s1 hrun (by simp), ?_, rfl⟩
  intro hpattern
  exact semRun_final_empty _ tr s1 hrun (fun t => taskEvents_balance t tr (hpattern t))

theorem c6_semaphore_bound_witness :
    semRun (semaphoreCapacity 5 3) ∅ semTrace20 = some ∅ ∧
    (∀ n, ∃ s2, semRun (semaphoreCapacity 5 3) ∅ (semTrace20.take n) = some s2 ∧
        s2.card ≤ semaphoreCapacity 5 3) :=
  ⟨by decide, (c6_semaphore_bound 5 3 semTrace20 ∅ (by decide)).1⟩

end Arb
